import Mathlib

/-
Verification of the streaming web-audio playback controller.

Shallow embedding of:
 - the Pumper class, second variant in src/lib/MediaElement.js (lines 169-232
  of the concatenated file), the variant whose onRead receives a record
  with value and done fields, matching both the unit tests and the
  destructuring in WebAudio.loadSource;
 - the WebAudio class in src/lib/WebAudio.js.

Byte buffers are lists of naturals, clock values and durations are rationals,
decoded audio buffers carry a duration plus a tag that records which byte
snapshot produced them.  All definitions mirror the JavaScript source line by
line; doc comments cite the lines they embed.
-/

namespace WebAudioSpec

/-- A decoded audio buffer: the opaque result of context.decodeAudioData.
Only its duration is inspected by the source; the tag field records the
identity of the decode that produced it, so that distinct decode results can
be told apart in theorems. -/
structure AudioBuffer where
  duration : ℚ
  tag : ℕ
deriving DecidableEq

/-- An AudioBufferSourceNode as used by the source: a playback source bound to
exactly one decoded buffer (src/lib/WebAudio.js line 138 sets
audioSource.buffer = audioBuffer). -/
structure AudioSrc where
  buffer : AudioBuffer
deriving DecidableEq

/-- The observable callbacks of the controller (src/lib/WebAudio.js 62-66). -/
inductive Ev where
  | onProgress
  | onLoad
  | onPlay
  | onPause
  | onStop
deriving DecidableEq

/-- Modelled from the spec: the byte-array concatenation helper lib/concat.js
is not present under src/lib; only its unit tests (src/test/concat.js) are.
Those tests pin it down as elementwise concatenation of the two byte arrays,
which over lists of bytes is list append. -/
def concatUint8Array (a b : List ℕ) : List ℕ := a ++ b

/-- The mutable fields of a Pumper instance (src/lib/MediaElement.js 171-176):
buffer starts empty, cancelled and done start false. -/
structure PumperState where
  buffer : List ℕ
  cancelled : Bool
  done : Bool
deriving DecidableEq

/-- Pumper.cancel (src/lib/MediaElement.js 229-231): it only sets the
cancelled flag. -/
def Pumper.cancel (p : PumperState) : PumperState := { p with cancelled := true }

/-- The observable outcome of one pump run: the onRead invocations in order
(each carrying the delivered byte buffer, or none for the final done
notification, together with the done flag), the number of calls to the
reader cancel operation, the final accumulated buffer and the done flag. -/
structure PumpOut where
  reads : List (Option (List ℕ) × Bool)
  readerCancels : ℕ
  buffer : List ℕ
  done : Bool
deriving DecidableEq

/-- Whether the continuation of the read at step k observes the cancelled
flag: cancelAt = some j means cancel() ran before the read at step j
resolved (and hence before every later read). -/
def cancelledAt (cancelAt : Option ℕ) (k : ℕ) : Bool :=
  match cancelAt with
  | none => false
  | some j => decide (j ≤ k)

/-- Pumper.pump (src/lib/MediaElement.js 200-220).  Each resolved read runs
the continuation: if cancelled, call reader.cancel() and stop with no
notification; if the stream is done, set the done flag and deliver one final
onRead with value none and done true; otherwise append the chunk to the
buffer and deliver onRead with the accumulated buffer and done false, then
keep pumping.  The stream is the list of chunks it will deliver; k counts
the reads already resolved. -/
def pumpGo (cancelAt : Option ℕ) (k : ℕ) (buf : List ℕ) (chunks : List (List ℕ)) :
    PumpOut :=
  if cancelledAt cancelAt k then
    { reads := [], readerCancels := 1, buffer := buf, done := false }
  else
    match chunks with
    | [] => { reads := [(none, true)], readerCancels := 0, buffer := buf, done := true }
    | c :: rest =>
        let newBuf := concatUint8Array buf c
        let r := pumpGo cancelAt (k + 1) newBuf rest
        { r with reads := (some newBuf, false) :: r.reads }

/-- A full pump run of a fresh Pumper (constructor buffer is empty,
src/lib/MediaElement.js 172). -/
def Pumper.pump (cancelAt : Option ℕ) (chunks : List (List ℕ)) : PumpOut :=
  pumpGo cancelAt 0 [] chunks

/- Helper lemmas about pump runs. -/

lemma pumpGo_none_reads (chunks : List (List ℕ)) : ∀ (k : ℕ) (buf : List ℕ),
    (pumpGo none k buf chunks).reads
      = (List.range chunks.length).map
          (fun i => (some (buf ++ (chunks.take (i + 1)).flatten), false))
        ++ [(none, true)] := by
  induction chunks with
  | nil => intro k buf; simp [pumpGo, cancelledAt]
  | cons c rest ih =>
      intro k buf
      simp only [pumpGo, cancelledAt, Bool.false_eq_true, if_false,
        concatUint8Array, List.length_cons, List.range_succ_eq_map,
        List.map_cons, List.map_map, ih]
      congr 1
      · simp
      · congr 1
        apply List.map_congr_left
        intro i _
        simp [Function.comp, List.append_assoc]

lemma pumpGo_cancel_reads (chunks : List (List ℕ)) : ∀ (j k : ℕ) (buf : List ℕ),
    (pumpGo (some j) k buf chunks).reads
      = ((pumpGo none k buf chunks).reads).take (j - k) := by
  induction chunks with
  | nil =>
      intro j k buf
      by_cases hjk : j ≤ k
      · simp [pumpGo, cancelledAt, hjk, Nat.sub_eq_zero_of_le hjk]
      · have h1 : 1 ≤ j - k := by omega
        simp [pumpGo, cancelledAt, hjk, List.take_of_length_le, h1]
  | cons c rest ih =>
      intro j k buf
      by_cases hjk : j ≤ k
      · simp [pumpGo, cancelledAt, hjk, Nat.sub_eq_zero_of_le hjk]
      · have hsub : j - k = (j - (k + 1)) + 1 := by omega
        simp [pumpGo, cancelledAt, hjk, hsub, ih]

/-- C4: for every finite sequence of N chunks delivered by a stream to an
uncancelled Pumper, pump produces exactly N+1 onRead invocations in order:
the k-th (k at most N) carries done=false and a buffer equal to the
concatenation of the first k chunks, and the final invocation carries
done=true with null contents and is last; pumping an empty stream delivers
exactly one onRead call with done=true. -/
theorem pump_reads_cumulative_then_done (chunks : List (List ℕ)) :
    (Pumper.pump none chunks).reads
      = (List.range chunks.length).map
          (fun k => (some ((chunks.take (k + 1)).flatten), false))
        ++ [(none, true)]
    ∧ (Pumper.pump none []).reads = [(none, true)] := by
  refine ⟨?_, by simp [Pumper.pump, pumpGo, cancelledAt]⟩
  rw [Pumper.pump, pumpGo_none_reads]
  simp

/-- Witness for C4: the theorem instantiated at the three-chunk stream used
by the unit tests of the repository. -/
theorem pump_reads_cumulative_then_done_w :
    (Pumper.pump none [[1, 2, 3], [4, 5, 6], [7, 8, 9]]).reads
      = (List.range 3).map
          (fun k => ((some (([[1, 2, 3], [4, 5, 6], [7, 8, 9]].take (k + 1)).flatten) :
              Option (List ℕ)), false))
        ++ [(none, true)]
    ∧ (Pumper.pump none []).reads = [(none, true)] :=
  pump_reads_cumulative_then_done [[1, 2, 3], [4, 5, 6], [7, 8, 9]]

/-- C5: cancelling a Pumper before its pending read resolves yields zero
onRead invocations and exactly one call to the reader cancel operation;
Pumper.cancel is idempotent; and once cancelled (before the read at step j
resolves) a Pumper delivers no onRead call from step j onwards, that is,
its reads are exactly the first j reads of the uncancelled run. -/
theorem pump_cancel_properties :
    (∀ chunks : List (List ℕ),
      (Pumper.pump (some 0) chunks).reads = []
        ∧ (Pumper.pump (some 0) chunks).readerCancels = 1) ∧
    (∀ p : PumperState, Pumper.cancel (Pumper.cancel p) = Pumper.cancel p) ∧
    (∀ (j : ℕ) (chunks : List (List ℕ)),
      (Pumper.pump (some j) chunks).reads
        = ((Pumper.pump none chunks).reads).take j) := by
  refine ⟨?_, ?_, ?_⟩
  · intro chunks
    cases chunks <;> simp [Pumper.pump, pumpGo, cancelledAt]
  · intro p
    simp [Pumper.cancel]
  · intro j chunks
    rw [Pumper.pump, Pumper.pump, pumpGo_cancel_reads, Nat.sub_zero]

/-- Witness for C5: the cancellation facts instantiated at the three-chunk
stream of the unit tests, cancelled before the second read resolves. -/
theorem pump_cancel_properties_w :
    ((Pumper.pump (some 0) [[1, 2, 3], [4, 5, 6], [7, 8, 9]]).reads = []
        ∧ (Pumper.pump (some 0) [[1, 2, 3], [4, 5, 6], [7, 8, 9]]).readerCancels = 1)
    ∧ Pumper.cancel (Pumper.cancel ⟨[1, 2, 3], false, false⟩)
        = Pumper.cancel ⟨[1, 2, 3], false, false⟩
    ∧ (Pumper.pump (some 1) [[1, 2, 3], [4, 5, 6], [7, 8, 9]]).reads
        = ((Pumper.pump none [[1, 2, 3], [4, 5, 6], [7, 8, 9]]).reads).take 1 :=
  ⟨pump_cancel_properties.1 [[1, 2, 3], [4, 5, 6], [7, 8, 9]],
   pump_cancel_properties.2.1 ⟨[1, 2, 3], false, false⟩,
   pump_cancel_properties.2.2 1 [[1, 2, 3], [4, 5, 6], [7, 8, 9]]⟩

/-- The mutable fields of a WebAudio instance (src/lib/WebAudio.js 39-67),
plus lastDecode, which models the _lastDecodePromise field (line 234) by the
generation number of the last issued decode; it is none while the field has
never been assigned.  The minLoadDuration configuration option is stored on
the instance (line 50); the throttleDecode option affects only the rate
limiter wrapped around handleDecode and is modelled as the identity
(the configuration throttleDecode = 0 used by the unit tests of the
repository), so it does not appear in the state. -/
structure WA where
  audioBuffer : Option AudioBuffer
  audioSource : Option AudioSrc
  startTime : Option ℚ
  pauseTime : Option ℚ
  loading : Bool
  paused : Bool
  buffering : Bool
  minLoadDuration : ℚ
  lastDecode : Option ℕ
deriving DecidableEq

/-- The constructor (src/lib/WebAudio.js 39-67): no buffer, no source, both
clock markers unset, loading false, paused true, buffering false, and
_lastDecodePromise never assigned. -/
def WA.init (minLoadDuration : ℚ) : WA :=
  { audioBuffer := none, audioSource := none, startTime := none, pauseTime := none,
    loading := false, paused := true, buffering := false,
    minLoadDuration := minLoadDuration, lastDecode := none }

/-- WebAudio.currentTime (src/lib/WebAudio.js 270-286): 0 when audioSource or
startTime is null; otherwise the elapsed time (pauseTime - startTime when
paused, contextNow - startTime when playing) clamped by Math.min to the
duration of the buffer bound to the audio source.  In JavaScript a null
pauseTime in the paused branch would yield NaN; the model reads it with a
default of 0, a case the reachable states never hit and no theorem relies
on. -/
def currentTime (now : ℚ) (s : WA) : ℚ :=
  match s.audioSource, s.startTime with
  | none, _ => 0
  | some _, none => 0
  | some src, some t0 =>
      if s.paused then min (s.pauseTime.getD 0 - t0) src.buffer.duration
      else min (now - t0) src.buffer.duration

/-- WebAudio._createAudioSource (src/lib/WebAudio.js 130-142): null when
there is no audio buffer, otherwise a fresh source bound to the current
audio buffer. -/
def createAudioSource (s : WA) : Option AudioSrc :=
  match s.audioBuffer with
  | none => none
  | some b => some ⟨b⟩

/-- WebAudio._disposeAudioSource (src/lib/WebAudio.js 189-200): stop and
disconnect the current source (no state beyond the field) and null the
field. -/
def disposeAudioSource (s : WA) : WA := { s with audioSource := none }

/-- WebAudio._playAudioBuffer (src/lib/WebAudio.js 167-177): start the source
at the current elapsed offset, set startTime to contextNow minus that offset,
clear pauseTime, clear paused and buffering.  The source evaluates
this.currentTime() twice on an unchanged state, so the model evaluates it
once. -/
def playAudioBuffer (now : ℚ) (s : WA) : WA :=
  let ct := currentTime now s
  { s with startTime := some (now - ct), pauseTime := none,
           paused := false, buffering := false }

/-- WebAudio._updateAudioBuffer (src/lib/WebAudio.js 108-119): install the
new buffer, dispose the old source, create a fresh source from the new
buffer, and if not paused or buffering, start it via _playAudioBuffer. -/
def updateAudioBuffer (now : ℚ) (b : AudioBuffer) (s : WA) : WA :=
  let s1 : WA := { s with audioBuffer := some b }
  let s2 := disposeAudioSource s1
  let s3 : WA := { s2 with audioSource := createAudioSource s2 }
  if !s3.paused || s3.buffering then playAudioBuffer now s3 else s3

/-- The continuation of WebAudio._decodeAudioBuffer (src/lib/WebAudio.js
85-91), run when a decode settles with result b: when the decoded duration
is at least minLoadDuration, install the buffer and fire onProgress;
otherwise do nothing. -/
def decodeComplete (now : ℚ) (b : AudioBuffer) (s : WA) : WA × List Ev :=
  if s.minLoadDuration ≤ b.duration then
    (updateAudioBuffer now b s, [Ev.onProgress])
  else (s, [])

/-- WebAudio.pause (src/lib/WebAudio.js 321-342): with no source, set paused
and clear buffering without firing an event; when already paused, do
nothing; otherwise set paused, record pauseTime = contextNow, detach the
completion handler, dispose the source, rebuild an unstarted source from the
current buffer and fire onPause. -/
def pause (now : ℚ) (s : WA) : WA × List Ev :=
  match s.audioSource with
  | none => ({ s with paused := true, buffering := false }, [])
  | some _ =>
      if s.paused then (s, [])
      else
        let s1 : WA := { s with paused := true, pauseTime := some now }
        let s2 := disposeAudioSource s1
        let s3 : WA := { s2 with audioSource := createAudioSource s2 }
        (s3, [Ev.onPause])

/-- WebAudio.play (src/lib/WebAudio.js 296-312): with no source, clear paused
and set buffering without firing an event; when already playing, do nothing;
otherwise start via _playAudioBuffer and fire onPlay. -/
def play (now : ℚ) (s : WA) : WA × List Ev :=
  match s.audioSource with
  | none => ({ s with paused := false, buffering := true }, [])
  | some _ =>
      if !s.paused then (s, [])
      else (playAudioBuffer now s, [Ev.onPlay])

/-- WebAudio._handleBufferEnded (src/lib/WebAudio.js 152-158): when loading,
set buffering, then call pause. -/
def handleBufferEnded (now : ℚ) (s : WA) : WA × List Ev :=
  let s1 := if s.loading then { s with buffering := true } else s
  pause now s1

/-- WebAudio.stop (src/lib/WebAudio.js 351-358): only acts when a source
exists: dispose the source, cancel the pumper, reset the playback state
(_disposeAudioBuffer, lines 208-215) and fire onStop. -/
def stop (s : WA) : WA × List Ev :=
  match s.audioSource with
  | none => (s, [])
  | some _ =>
      let s1 := disposeAudioSource s
      let s2 : WA := { s1 with audioBuffer := none, startTime := none,
                               pauseTime := none, loading := false,
                               paused := true, buffering := false }
      (s2, [Ev.onStop])

/-- The transitions of the controller: the two public transport operations
and stop, the synchronous prefix of loadSource (line 220 sets loading), the
issue of a decode by handleDecode (line 234 assigns _lastDecodePromise), the
settlement of a decode (the continuation at lines 85-91), the settlement of
the final load bookkeeping chained at lines 227-230, and the natural
completion notification of a playback source. -/
inductive Op where
  | loadStart
  | issueDecode (g : ℕ)
  | decode (now : ℚ) (b : AudioBuffer)
  | loadSettle
  | play (now : ℚ)
  | pause (now : ℚ)
  | stop
  | bufferEnded (now : ℚ)

/-- The effect of one transition on the controller state, with the fired
events. -/
def step (o : Op) (s : WA) : WA × List Ev :=
  match o with
  | .loadStart => ({ s with loading := true }, [])
  | .issueDecode g => ({ s with lastDecode := some g }, [])
  | .decode now b => decodeComplete now b s
  | .loadSettle => ({ s with loading := false }, [Ev.onLoad])
  | .play now => play now s
  | .pause now => pause now s
  | .stop => stop s
  | .bufferEnded now => handleBufferEnded now s

/-- The environment constraint on a transition: a decoded audio buffer
delivered by the decoder has a nonnegative duration. -/
def Op.wf : Op → Prop
  | .decode _ b => 0 ≤ b.duration
  | _ => True

/-- The states reachable from a freshly constructed instance through the
transitions. -/
inductive Reachable : WA → Prop where
  | init (minDur : ℚ) : Reachable (WA.init minDur)
  | next (o : Op) (s : WA) : Op.wf o → Reachable s → Reachable (step o s).1

/-- The structural invariant of reachable states: a source is always bound to
the current audio buffer, a set startTime implies a live source, and the
current audio buffer has a nonnegative duration. -/
def StateInv (s : WA) : Prop :=
  (∀ src, s.audioSource = some src → s.audioBuffer = some src.buffer) ∧
  (s.startTime ≠ none → s.audioSource ≠ none) ∧
  (∀ b, s.audioBuffer = some b → 0 ≤ b.duration)

lemma stateInv_pause (now : ℚ) (s : WA) (h : StateInv s) : StateInv (pause now s).1 := by
  obtain ⟨h1, h2, h3⟩ := h
  cases hs : s.audioSource with
  | none =>
      have hstn : s.startTime = none := by
        by_contra hc
        exact h2 hc hs
      refine ⟨?_, ?_, ?_⟩
      · intro src hsrc
        simp [pause, hs] at hsrc
      · simp [pause, hs, hstn]
      · intro b hb
        simp [pause, hs] at hb
        exact h3 b hb
  | some src =>
      have hbuf : s.audioBuffer = some src.buffer := h1 src hs
      cases hp : s.paused with
      | true =>
          simp only [pause, hs, hp, if_true]
          exact ⟨h1, h2, h3⟩
      | false =>
          refine ⟨?_, ?_, ?_⟩
          · intro src2 hsrc2
            simp [pause, hs, hp, disposeAudioSource, createAudioSource, hbuf] at hsrc2 ⊢
            simp [hbuf, ← hsrc2]
          · simp [pause, hs, hp, disposeAudioSource, createAudioSource, hbuf]
          · intro b hb
            simp [pause, hs, hp, disposeAudioSource, createAudioSource] at hb
            exact h3 b hb

lemma stateInv_step (o : Op) (s : WA) (hwf : Op.wf o) (h : StateInv s) :
    StateInv (step o s).1 := by
  obtain ⟨h1, h2, h3⟩ := h
  cases o with
  | loadStart => exact ⟨h1, h2, h3⟩
  | issueDecode g => exact ⟨h1, h2, h3⟩
  | loadSettle => exact ⟨h1, h2, h3⟩
  | decode now b =>
      have hb0 : 0 ≤ b.duration := hwf
      simp only [step, decodeComplete]
      by_cases hd : s.minLoadDuration ≤ b.duration
      · simp only [hd, if_true]
        refine ⟨?_, ?_, ?_⟩
        · intro src hsrc
          by_cases hpb : (!s.paused || s.buffering) = true
          all_goals
            simp [updateAudioBuffer, disposeAudioSource, createAudioSource,
              playAudioBuffer, hpb] at hsrc ⊢
          all_goals rw [← hsrc]
        · simp [updateAudioBuffer, disposeAudioSource, createAudioSource,
            playAudioBuffer]
          split <;> simp
        · intro bb hbb
          simp [updateAudioBuffer, disposeAudioSource, createAudioSource,
            playAudioBuffer] at hbb
          split at hbb <;> simp_all
      · simp only [hd, if_false]
        exact ⟨h1, h2, h3⟩
  | play now =>
      cases hs : s.audioSource with
      | none =>
          have hstn : s.startTime = none := by
            by_contra hc
            exact h2 hc hs
          refine ⟨?_, ?_, ?_⟩
          · intro src hsrc
            simp [step, play, hs] at hsrc
          · simp [step, play, hs, hstn]
          · intro b hb
            simp [step, play, hs] at hb
            exact h3 b hb
      | some src =>
          cases hp : s.paused with
          | false =>
              simp only [step, play, hs, hp, Bool.not_false, if_true]
              exact ⟨h1, h2, h3⟩
          | true =>
              refine ⟨?_, ?_, ?_⟩
              · intro src2 hsrc2
                simp [step, play, hs, hp, playAudioBuffer] at hsrc2 ⊢
                subst hsrc2
                exact h1 src hs
              · simp [step, play, hs, hp, playAudioBuffer]
              · intro b hb
                simp [step, play, hs, hp, playAudioBuffer] at hb
                exact h3 b hb
  | pause now => exact stateInv_pause now s ⟨h1, h2, h3⟩
  | stop =>
      cases hs : s.audioSource with
      | none =>
          simp only [step, stop, hs]
          exact ⟨h1, h2, h3⟩
      | some src =>
          refine ⟨?_, ?_, ?_⟩ <;> simp [step, stop, hs, disposeAudioSource]
  | bufferEnded now =>
      simp only [step, handleBufferEnded]
      by_cases hl : s.loading = true
      · simp only [hl, if_true]
        exact stateInv_pause now _ ⟨h1, h2, h3⟩
      · simp only [hl, if_false]
        exact stateInv_pause now s ⟨h1, h2, h3⟩

lemma stateInv_reachable (s : WA) (h : Reachable s) : StateInv s := by
  induction h with
  | init minDur =>
      refine ⟨?_, ?_, ?_⟩ <;> simp [WA.init]
  | next o s hwf _ ih => exact stateInv_step o s hwf ih

lemma pause_loading (now : ℚ) (t : WA) : (pause now t).1.loading = t.loading := by
  cases ht : t.audioSource with
  | none => simp [pause, ht]
  | some src =>
      by_cases hp : t.paused = true <;>
        simp [pause, ht, hp, disposeAudioSource, createAudioSource]

lemma pause_buffering_mono (now : ℚ) (t : WA)
    (h : (pause now t).1.buffering = true) : t.buffering = true := by
  cases ht : t.audioSource with
  | none => simp [pause, ht] at h
  | some src =>
      by_cases hp : t.paused = true <;>
        simpa [pause, ht, hp, disposeAudioSource, createAudioSource] using h

/-- C3 counterexample: the claim that buffering implies loading in every
reachable state is false: from the construction state (loading false) a
single play() call, which the repository unit test play with no audio
source performs, reaches a state with buffering true and loading false. -/
theorem play_without_source_sets_buffering :
    Reachable (step (Op.play 0) (WA.init 1)).1 ∧
    (step (Op.play 0) (WA.init 1)).1.buffering = true ∧
    (step (Op.play 0) (WA.init 1)).1.loading = false :=
  ⟨Reachable.next (Op.play 0) (WA.init 1) (by trivial) (Reachable.init 1), rfl, rfl⟩

/-- C3 (amended): the decode and exhaustion transitions never raise
buffering while loading is false: any transition that turns buffering from
false to true is either play() invoked with no playback source, which sets
buffering regardless of loading, or leaves loading true afterwards (the
exhaustion handler raises buffering only when loading is true). -/
theorem buffering_rise_only_play_or_loading (s : WA) (o : Op)
    (h1 : (step o s).1.buffering = true) (h2 : s.buffering = false) :
    (∃ now, o = Op.play now ∧ s.audioSource = none) ∨ (step o s).1.loading = true := by
  cases o with
  | loadStart => simp [step, h2] at h1
  | issueDecode g => simp [step, h2] at h1
  | loadSettle => simp [step, h2] at h1
  | decode now b =>
      exfalso
      simp only [step, decodeComplete] at h1
      by_cases hd : s.minLoadDuration ≤ b.duration
      · cases hps : s.paused <;>
          simp [hd, hps, updateAudioBuffer, disposeAudioSource,
            createAudioSource, playAudioBuffer, h2] at h1
      · simp [hd, h2] at h1
  | play now =>
      cases hs : s.audioSource with
      | none => exact Or.inl ⟨now, rfl, rfl⟩
      | some src =>
          exfalso
          cases hp : s.paused with
          | false => simp [step, play, hs, hp, h2] at h1
          | true => simp [step, play, hs, hp, playAudioBuffer] at h1
  | pause now =>
      exact absurd (pause_buffering_mono now s h1) (by simp [h2])
  | stop =>
      exfalso
      cases hs : s.audioSource with
      | none => simp [step, stop, hs, h2] at h1
      | some src => simp [step, stop, hs, disposeAudioSource] at h1
  | bufferEnded now =>
      by_cases hl : s.loading = true
      · refine Or.inr ?_
        simp only [step, handleBufferEnded, hl, if_true]
        rw [pause_loading]
      · exfalso
        simp only [step, handleBufferEnded, hl, if_false] at h1
        exact absurd (pause_buffering_mono now s h1) (by simp [h2])

/-- Witness for C3 (amended): at the concrete transition of the
counterexample, the raise of buffering is indeed the play branch with no
playback source. -/
theorem buffering_rise_only_play_or_loading_w :
    (∃ now, Op.play 0 = Op.play now ∧ (WA.init 1).audioSource = none) ∨
    (step (Op.play 0) (WA.init 1)).1.loading = true :=
  buffering_rise_only_play_or_loading (WA.init 1) (Op.play 0) rfl rfl

/-- C6: currentTime is a pure function of the controller state: over the
reachable states it is 0 when there is no decoded audio buffer or startTime
is unset; when paused it is min(pauseTime - startTime, duration); when
playing it is min(contextNow - startTime, duration); and the clamping
duration is that of the current decoded audio buffer, which the value never
exceeds. -/
theorem currentTime_cases_and_clamp (s : WA) (now : ℚ) (h : Reachable s) :
    ((s.audioBuffer = none ∨ s.startTime = none) → currentTime now s = 0) ∧
    (∀ b t0 pt, s.audioBuffer = some b → s.startTime = some t0 →
      s.paused = true → s.pauseTime = some pt →
      currentTime now s = min (pt - t0) b.duration) ∧
    (∀ b t0, s.audioBuffer = some b → s.startTime = some t0 →
      s.paused = false → currentTime now s = min (now - t0) b.duration) ∧
    (∀ b, s.audioBuffer = some b → currentTime now s ≤ b.duration) := by
  obtain ⟨h1, h2, h3⟩ := stateInv_reachable s h
  refine ⟨?_, ?_, ?_, ?_⟩
  · rintro (hbn | hstn)
    · cases hs : s.audioSource with
      | none => simp [currentTime, hs]
      | some src => exact absurd (h1 src hs) (by simp [hbn])
    · cases hs : s.audioSource with
      | none => simp [currentTime, hs]
      | some src => simp [currentTime, hs, hstn]
  · intro b t0 pt hb hst hp hpt
    obtain ⟨src, hs⟩ := Option.ne_none_iff_exists'.mp (h2 (by simp [hst]))
    have hsb : src.buffer = b := by
      have := h1 src hs
      rw [hb] at this
      exact (Option.some_injective _ this).symm
    simp [currentTime, hs, hst, hp, hpt, hsb]
  · intro b t0 hb hst hp
    obtain ⟨src, hs⟩ := Option.ne_none_iff_exists'.mp (h2 (by simp [hst]))
    have hsb : src.buffer = b := by
      have := h1 src hs
      rw [hb] at this
      exact (Option.some_injective _ this).symm
    simp [currentTime, hs, hst, hp, hsb]
  · intro b hb
    cases hs : s.audioSource with
    | none => simpa [currentTime, hs] using h3 b hb
    | some src =>
        have hsb : src.buffer = b := by
          have := h1 src hs
          rw [hb] at this
          exact (Option.some_injective _ this).symm
        cases hst : s.startTime with
        | none => simpa [currentTime, hs, hst] using h3 b hb
        | some t0 =>
            cases hp : s.paused with
            | true => simp [currentTime, hs, hst, hp, hsb]
            | false => simp [currentTime, hs, hst, hp, hsb]

/-- Witness for C6: the theorem instantiated at the construction state,
which is reachable by the init rule. -/
theorem currentTime_cases_and_clamp_w :
    (((WA.init 1).audioBuffer = none ∨ (WA.init 1).startTime = none) →
      currentTime 0 (WA.init 1) = 0) ∧
    (∀ b t0 pt, (WA.init 1).audioBuffer = some b → (WA.init 1).startTime = some t0 →
      (WA.init 1).paused = true → (WA.init 1).pauseTime = some pt →
      currentTime 0 (WA.init 1) = min (pt - t0) b.duration) ∧
    (∀ b t0, (WA.init 1).audioBuffer = some b → (WA.init 1).startTime = some t0 →
      (WA.init 1).paused = false → currentTime 0 (WA.init 1) = min (0 - t0) b.duration) ∧
    (∀ b, (WA.init 1).audioBuffer = some b → currentTime 0 (WA.init 1) ≤ b.duration) :=
  currentTime_cases_and_clamp (WA.init 1) 0 (Reachable.init 1)

/-- C7: pause and resume round trip: for a playing track with startTime t0
and elapsed time below the buffer duration, calling pause() at clock t1 and
play() at clock t2 yields currentTime() equal to t1 - t0 immediately after
the resume, and a later reading at clock t3 advances from that point,
clamped by the buffer duration. -/
theorem pause_resume_roundtrip (s : WA) (src : AudioSrc) (b : AudioBuffer)
    (t0 t1 t2 t3 : ℚ)
    (hs : s.audioSource = some src) (hb : s.audioBuffer = some b)
    (hsb : src.buffer = b) (hp : s.paused = false) (hst : s.startTime = some t0)
    (h01 : t0 ≤ t1) (hdur : t1 - t0 < b.duration) (h12 : t1 ≤ t2) (h23 : t2 ≤ t3) :
    currentTime t2 (play t2 (pause t1 s).1).1 = t1 - t0 ∧
    currentTime t3 (play t2 (pause t1 s).1).1
      = min ((t1 - t0) + (t3 - t2)) b.duration := by
  have hpause : (pause t1 s).1
      = { s with paused := true, pauseTime := some t1, audioSource := some ⟨b⟩ } := by
    simp [pause, hs, hp, disposeAudioSource, createAudioSource, hb]
  have hplay : (play t2 (pause t1 s).1).1
      = { s with audioSource := some ⟨b⟩, startTime := some (t2 - (t1 - t0)),
                 pauseTime := none, paused := false, buffering := false } := by
    rw [hpause]
    simp [play, playAudioBuffer, currentTime, hst, min_eq_left hdur.le]
  constructor
  · rw [hplay]
    have harith : t2 - (t2 - (t1 - t0)) = t1 - t0 := by ring
    simp [currentTime, harith, min_eq_left hdur.le]
  · rw [hplay]
    have harith : t3 - (t2 - (t1 - t0)) = (t1 - t0) + (t3 - t2) := by ring
    simp [currentTime, harith]

/-- The concrete playing state used by the witness of the round trip
theorem: a 30 second buffer playing from context time 0. -/
def rtState : WA :=
  { audioBuffer := some ⟨30, 0⟩, audioSource := some ⟨⟨30, 0⟩⟩,
    startTime := some 0, pauseTime := none, loading := false,
    paused := false, buffering := false, minLoadDuration := 1,
    lastDecode := none }

/-- Witness for C7: pausing at clock 3 and resuming at clock 10 yields
elapsed time 3, and at clock 12 the elapsed time is 5. -/
theorem pause_resume_roundtrip_w :
    currentTime 10 (play 10 (pause 3 rtState).1).1 = 3 - 0 ∧
    currentTime 12 (play 10 (pause 3 rtState).1).1
      = min ((3 - 0) + (12 - 10)) (30 : ℚ) := by
  have h := pause_resume_roundtrip rtState ⟨⟨30, 0⟩⟩ ⟨30, 0⟩ 0 3 10 12
    rfl rfl rfl rfl rfl (by decide) (by norm_num) (by decide) (by decide)
  exact h

/-- C8: a decode completion whose decoded duration is strictly below
minLoadDuration leaves the controller state unchanged: the current decoded
audio buffer is not replaced, no source swap occurs, and onProgress is not
fired. -/
theorem short_decode_discarded (now : ℚ) (b : AudioBuffer) (s : WA)
    (h : b.duration < s.minLoadDuration) :
    decodeComplete now b s = (s, []) := by
  simp [decodeComplete, not_le.mpr h]

/-- Witness for C8: a zero-duration decode result against the default
minimum of 1 second is discarded without any state change or event. -/
theorem short_decode_discarded_w :
    decodeComplete 0 ⟨0, 0⟩ (WA.init 1) = (WA.init 1, []) :=
  short_decode_discarded 0 ⟨0, 0⟩ (WA.init 1) (by decide)

/-- C9: when a playback source completes naturally while loading is true,
the exhaustion handler sets buffering, then performs the pause bookkeeping:
paused becomes true and pauseTime records the completion moment; onStop is
not fired by this transition. -/
theorem exhaustion_while_loading (now : ℚ) (s : WA) (src : AudioSrc)
    (hs : s.audioSource = some src) (hl : s.loading = true) (hp : s.paused = false) :
    (handleBufferEnded now s).1.buffering = true ∧
    (handleBufferEnded now s).1.paused = true ∧
    (handleBufferEnded now s).1.pauseTime = some now ∧
    Ev.onStop ∉ (handleBufferEnded now s).2 := by
  simp [handleBufferEnded, hl, pause, hs, hp, disposeAudioSource, createAudioSource]

/-- The concrete state used by the witness of the exhaustion theorem: a
playing track whose download is still in progress. -/
def exhState : WA :=
  { audioBuffer := some ⟨30, 0⟩, audioSource := some ⟨⟨30, 0⟩⟩,
    startTime := some 0, pauseTime := none, loading := true,
    paused := false, buffering := false, minLoadDuration := 1,
    lastDecode := some 0 }

/-- Witness for C9: the exhaustion transition at clock 7 on a loading,
playing state. -/
theorem exhaustion_while_loading_w :
    (handleBufferEnded 7 exhState).1.buffering = true ∧
    (handleBufferEnded 7 exhState).1.paused = true ∧
    (handleBufferEnded 7 exhState).1.pauseTime = some 7 ∧
    Ev.onStop ∉ (handleBufferEnded 7 exhState).2 :=
  exhaustion_while_loading 7 exhState ⟨⟨30, 0⟩⟩ rfl rfl rfl

/-
The execution of one loadSource call (src/lib/WebAudio.js 219-242).  The
single JavaScript thread interleaves three kinds of continuations, which a
schedule picks in any order:
 - streamEvent: the next pending reader.read() resolves and the Pumper
  continuation (src/lib/MediaElement.js 201-219) runs, invoking onRead and
  hence handleDecode (src/lib/WebAudio.js 223-235);
 - complete g now: the decodeAudioData promise of the decode issued with
  generation g settles at context time now, running the continuation of
  _decodeAudioBuffer (lines 85-91), and, when the final-notification
  bookkeeping was chained onto exactly this promise (lines 227-230), that
  continuation directly afterwards;
 - resolveResult: the caller of loadSource observes the fulfilment of the
  returned promise, which is the pump promise: it fulfils when the done
  branch of the pump loop returns, with no dependence on any decode
  promise.
Decode results are given by an environment dec from the byte snapshot to
the decoded buffer.  The throttle wrapper around handleDecode is modelled
as the identity (the throttleDecode = 0 configuration of the unit tests).
-/

/-- One schedulable continuation during a load. -/
inductive LAction where
  | streamEvent
  | complete (g : ℕ) (now : ℚ)
  | resolveResult
deriving DecidableEq

/-- The state of one loadSource execution: the controller state, the Pumper
byte buffer, the chunks the stream has not yet delivered, the in-flight
decodes as pairs of generation and promised result, the next generation
number, the generations already settled, whether the done branch of the
pump loop has run, whether the caller has observed the returned promise,
whether handleDecode threw (dereferencing an unassigned _lastDecodePromise),
and the events fired so far. -/
structure LoadState where
  wa : WA
  buf : List ℕ
  chunks : List (List ℕ)
  inflight : List (ℕ × AudioBuffer)
  nextGen : ℕ
  completed : List ℕ
  streamDone : Bool
  resultResolved : Bool
  threw : Bool
  events : List Ev
deriving DecidableEq

/-- The synchronous prefix of loadSource (src/lib/WebAudio.js 220-221): set
loading, cancel any previous pumper, create a fresh Pumper with an empty
buffer.  The _lastDecodePromise field is not reset by loadSource, so it is
carried over from s0. -/
def initLoad (s0 : WA) (chunks : List (List ℕ)) : LoadState :=
  { wa := { s0 with loading := true }, buf := [], chunks := chunks,
    inflight := [], nextGen := 0, completed := [], streamDone := false,
    resultResolved := false, threw := false, events := [] }

/-- One scheduled continuation.  streamEvent with remaining chunks is the
append-and-notify branch of the pump loop: handleDecode issues a decode of
the accumulated snapshot and assigns _lastDecodePromise (line 234).
streamEvent with no chunk left is the done branch: handleDecode reads
_lastDecodePromise; if it was never assigned the field is undefined and the
then call throws (the pump promise rejects); otherwise the final
bookkeeping (loading := false; onLoad) is chained onto that promise: it
runs at once when the promise has already settled, else when it settles.
complete g runs the decode continuation of generation g (ignored unless g
is in flight: a promise settles once): install the result when long enough
(decodeComplete), then run the chained final bookkeeping when the done
notification has arrived and g is the last issued generation.
resolveResult marks the returned promise as observed; it can only happen
after the done branch has run. -/
def loadStep (dec : List ℕ → AudioBuffer) (ls : LoadState) (a : LAction) : LoadState :=
  match a with
  | .streamEvent =>
      if ls.streamDone = true ∨ ls.threw = true then ls
      else
        match ls.chunks with
        | [] =>
            match ls.wa.lastDecode with
            | none => { ls with threw := true }
            | some g =>
                if g ∈ ls.completed then
                  { ls with streamDone := true,
                            wa := { ls.wa with loading := false },
                            events := ls.events ++ [Ev.onLoad] }
                else { ls with streamDone := true }
        | c :: rest =>
            let newBuf := concatUint8Array ls.buf c
            { ls with buf := newBuf, chunks := rest,
                      inflight := ls.inflight ++ [(ls.nextGen, dec newBuf)],
                      wa := { ls.wa with lastDecode := some ls.nextGen },
                      nextGen := ls.nextGen + 1 }
  | .complete g now =>
      match List.lookup g ls.inflight with
      | none => ls
      | some b =>
          let p := decodeComplete now b ls.wa
          let ls1 : LoadState :=
            { ls with wa := p.1, events := ls.events ++ p.2,
                      inflight := ls.inflight.filter (fun q => q.1 != g),
                      completed := g :: ls.completed }
          if ls.streamDone = true ∧ ls.wa.lastDecode = some g then
            { ls1 with wa := { ls1.wa with loading := false },
                       events := ls1.events ++ [Ev.onLoad] }
          else ls1
  | .resolveResult =>
      if ls.streamDone = true ∧ ls.resultResolved = false then
        { ls with resultResolved := true }
      else ls

/-- A whole load run: the schedule is folded over the initial load state. -/
def runLoad (dec : List ℕ → AudioBuffer) (s0 : WA) (chunks : List (List ℕ))
    (sched : List LAction) : LoadState :=
  sched.foldl (loadStep dec) (initLoad s0 chunks)

/-- The concrete decode environment of the counterexamples: every snapshot
decodes to a five second buffer tagged with the snapshot length, so buffers
from different snapshots are distinguishable. -/
def dec0 : List ℕ → AudioBuffer := fun bytes => ⟨5, bytes.length⟩

lemma decodeComplete_fst_loading (now : ℚ) (b : AudioBuffer) (s : WA) :
    (decodeComplete now b s).1.loading = s.loading := by
  by_cases hd : s.minLoadDuration ≤ b.duration
  · cases hps : s.paused <;> cases hbf : s.buffering <;>
      simp [decodeComplete, hd, hps, hbf, updateAudioBuffer, disposeAudioSource,
        createAudioSource, playAudioBuffer]
  · simp [decodeComplete, hd]

lemma decodeComplete_fst_lastDecode (now : ℚ) (b : AudioBuffer) (s : WA) :
    (decodeComplete now b s).1.lastDecode = s.lastDecode := by
  by_cases hd : s.minLoadDuration ≤ b.duration
  · cases hps : s.paused <;> cases hbf : s.buffering <;>
      simp [decodeComplete, hd, hps, hbf, updateAudioBuffer, disposeAudioSource,
        createAudioSource, playAudioBuffer]
  · simp [decodeComplete, hd]

lemma decodeComplete_snd_no_onLoad (now : ℚ) (b : AudioBuffer) (s : WA) :
    Ev.onLoad ∉ (decodeComplete now b s).2 := by
  by_cases hd : s.minLoadDuration ≤ b.duration <;> simp [decodeComplete, hd]

/-- The invariant of a load run that settles claim C1: the loading flag has
been cleared exactly when onLoad has fired; onLoad fires only once the done
notification has been processed and the last issued decode generation has
settled; and the returned promise resolves only after the whole stream has
been pumped. -/
def LoadInv (ls : LoadState) : Prop :=
  (ls.wa.loading = false ↔ Ev.onLoad ∈ ls.events) ∧
  (Ev.onLoad ∈ ls.events →
    ls.streamDone = true ∧ ∃ g, ls.wa.lastDecode = some g ∧ g ∈ ls.completed) ∧
  (ls.resultResolved = true → ls.streamDone = true)

lemma loadInv_step (dec : List ℕ → AudioBuffer) (a : LAction) (ls : LoadState)
    (h : LoadInv ls) : LoadInv (loadStep dec ls a) := by
  obtain ⟨h1, h2, h3⟩ := h
  cases a with
  | streamEvent =>
      by_cases hg : ls.streamDone = true ∨ ls.threw = true
      · have heq : loadStep dec ls LAction.streamEvent = ls := by
          simp [loadStep, hg]
        rw [heq]
        exact ⟨h1, h2, h3⟩
      · have hsd : ¬ls.streamDone = true := fun hc2 => hg (Or.inl hc2)
        cases hc : ls.chunks with
        | nil =>
            cases hl : ls.wa.lastDecode with
            | none =>
                have heq : loadStep dec ls LAction.streamEvent
                    = { ls with threw := true } := by
                  simp [loadStep, hg, hc, hl]
                rw [heq]
                exact ⟨h1, fun hin => absurd (h2 hin).1 hsd,
                  fun hr => absurd (h3 hr) hsd⟩
            | some g =>
                by_cases hmem : g ∈ ls.completed
                · have heq : loadStep dec ls LAction.streamEvent
                      = { ls with streamDone := true,
                                  wa := { ls.wa with loading := false },
                                  events := ls.events ++ [Ev.onLoad] } := by
                    simp [loadStep, hg, hc, hl, hmem]
                  rw [heq]
                  exact ⟨by simp, fun _ => ⟨rfl, g, hl, hmem⟩, fun _ => rfl⟩
                · have heq : loadStep dec ls LAction.streamEvent
                      = { ls with streamDone := true } := by
                    simp [loadStep, hg, hc, hl, hmem]
                  rw [heq]
                  exact ⟨h1, fun hin => absurd (h2 hin).1 hsd, fun _ => rfl⟩
        | cons c rest =>
            have heq : loadStep dec ls LAction.streamEvent
                = { ls with buf := concatUint8Array ls.buf c, chunks := rest,
                            inflight := ls.inflight
                              ++ [(ls.nextGen, dec (concatUint8Array ls.buf c))],
                            wa := { ls.wa with lastDecode := some ls.nextGen },
                            nextGen := ls.nextGen + 1 } := by
              simp [loadStep, hg, hc]
            rw [heq]
            exact ⟨h1, fun hin => absurd (h2 hin).1 hsd,
              fun hr => absurd (h3 hr) hsd⟩
  | complete g now =>
      cases hlk : List.lookup g ls.inflight with
      | none =>
          have heq : loadStep dec ls (LAction.complete g now) = ls := by
            simp [loadStep, hlk]
          rw [heq]
          exact ⟨h1, h2, h3⟩
      | some b =>
          by_cases hset : ls.streamDone = true ∧ ls.wa.lastDecode = some g
          · have heq : loadStep dec ls (LAction.complete g now)
                = { ls with
                    wa := { (decodeComplete now b ls.wa).1 with loading := false },
                    events := (ls.events ++ (decodeComplete now b ls.wa).2)
                      ++ [Ev.onLoad],
                    inflight := ls.inflight.filter (fun q => q.1 != g),
                    completed := g :: ls.completed } := by
              simp [loadStep, hlk, hset]
            rw [heq]
            refine ⟨by simp, fun _ => ⟨hset.1, g, ?_, by simp⟩, fun _ => hset.1⟩
            have hld := decodeComplete_fst_lastDecode now b ls.wa
            show (decodeComplete now b ls.wa).1.lastDecode = some g
            rw [hld]
            exact hset.2
          · have heq : loadStep dec ls (LAction.complete g now)
                = { ls with
                    wa := (decodeComplete now b ls.wa).1,
                    events := ls.events ++ (decodeComplete now b ls.wa).2,
                    inflight := ls.inflight.filter (fun q => q.1 != g),
                    completed := g :: ls.completed } := by
              simp [loadStep, hlk, hset]
            rw [heq]
            refine ⟨?_, ?_, fun hr => h3 hr⟩
            · show (decodeComplete now b ls.wa).1.loading = false ↔ _
              rw [decodeComplete_fst_loading]
              constructor
              · intro hld
                simp [h1.mp hld]
              · intro hin
                rcases List.mem_append.mp hin with hml | hml
                · exact h1.mpr hml
                · exact absurd hml (decodeComplete_snd_no_onLoad now b ls.wa)
            · intro hin
              have hin2 : Ev.onLoad ∈ ls.events := by
                rcases List.mem_append.mp hin with hml | hml
                · exact hml
                · exact absurd hml (decodeComplete_snd_no_onLoad now b ls.wa)
              obtain ⟨hdone, g2, hg2, hg2m⟩ := h2 hin2
              refine ⟨hdone, g2, ?_, by simp [hg2m]⟩
              show (decodeComplete now b ls.wa).1.lastDecode = some g2
              rw [decodeComplete_fst_lastDecode]
              exact hg2
  | resolveResult =>
      by_cases hr : ls.streamDone = true ∧ ls.resultResolved = false
      · have heq : loadStep dec ls LAction.resolveResult
            = { ls with resultResolved := true } := by
          simp [loadStep, hr]
        rw [heq]
        exact ⟨h1, h2, fun _ => hr.1⟩
      · have heq : loadStep dec ls LAction.resolveResult = ls := by
          simp [loadStep, hr]
        rw [heq]
        exact ⟨h1, h2, h3⟩

lemma foldl_loadInv (dec : List ℕ → AudioBuffer) (sched : List LAction) :
    ∀ ls : LoadState, LoadInv ls → LoadInv (sched.foldl (loadStep dec) ls) := by
  induction sched with
  | nil => intro ls h; exact h
  | cons a rest ih => intro ls h; exact ih _ (loadInv_step dec a ls h)

lemma loadInv_run (dec : List ℕ → AudioBuffer) (s0 : WA) (chunks : List (List ℕ))
    (sched : List LAction) : LoadInv (runLoad dec s0 chunks sched) := by
  have hinit : LoadInv (initLoad s0 chunks) := by
    refine ⟨?_, ?_, ?_⟩ <;> simp [initLoad]
  exact foldl_loadInv dec sched (initLoad s0 chunks) hinit

/-- C1 counterexample: the returned result of loadSource does not wait for
the last issued decode.  One chunk is pumped (issuing decode generation 0),
the stream ends, and the caller observes the fulfilled pump promise while
the decode promise is still pending: at that moment the result has resolved
but loading is still true and onLoad has not fired, contradicting the claim
that the result resolves only after the last issued decode has settled with
loading false and onLoad fired. -/
theorem loadResult_resolves_before_settle :
    (runLoad dec0 (WA.init 1) [[1]]
      [LAction.streamEvent, LAction.streamEvent,
       LAction.resolveResult]).resultResolved = true ∧
    (runLoad dec0 (WA.init 1) [[1]]
      [LAction.streamEvent, LAction.streamEvent,
       LAction.resolveResult]).wa.loading = true ∧
    Ev.onLoad ∉ (runLoad dec0 (WA.init 1) [[1]]
      [LAction.streamEvent, LAction.streamEvent,
       LAction.resolveResult]).events := by
  refine ⟨rfl, rfl, ?_⟩
  decide

/-- C1 (amended): on the final done notification the controller chains the
completion bookkeeping onto the last issued decode, so in every execution
loading is cleared exactly when onLoad fires, and that happens only after
both the done notification has been processed and the last issued decode
generation has settled; the returned result resolves only after the entire
stream has been pumped, but it does not wait for the last issued decode, so
it can resolve while loading is still true (see the counterexample). -/
theorem loadSettle_waits_last_decode (dec : List ℕ → AudioBuffer) (s0 : WA)
    (chunks : List (List ℕ)) (sched : List LAction) :
    ((runLoad dec s0 chunks sched).wa.loading = false ↔
      Ev.onLoad ∈ (runLoad dec s0 chunks sched).events) ∧
    (Ev.onLoad ∈ (runLoad dec s0 chunks sched).events →
      (runLoad dec s0 chunks sched).streamDone = true ∧
      ∃ g, (runLoad dec s0 chunks sched).wa.lastDecode = some g ∧
        g ∈ (runLoad dec s0 chunks sched).completed) ∧
    ((runLoad dec s0 chunks sched).resultResolved = true →
      (runLoad dec s0 chunks sched).streamDone = true) :=
  loadInv_run dec s0 chunks sched

/-- Witness for C1 (amended): a one-chunk load in which the decode settles
after the done notification and the caller then observes the result. -/
theorem loadSettle_waits_last_decode_w :
    ((runLoad dec0 (WA.init 1) [[1]]
        [LAction.streamEvent, LAction.streamEvent, LAction.complete 0 0,
         LAction.resolveResult]).wa.loading = false ↔
      Ev.onLoad ∈ (runLoad dec0 (WA.init 1) [[1]]
        [LAction.streamEvent, LAction.streamEvent, LAction.complete 0 0,
         LAction.resolveResult]).events) ∧
    (Ev.onLoad ∈ (runLoad dec0 (WA.init 1) [[1]]
        [LAction.streamEvent, LAction.streamEvent, LAction.complete 0 0,
         LAction.resolveResult]).events →
      (runLoad dec0 (WA.init 1) [[1]]
        [LAction.streamEvent, LAction.streamEvent, LAction.complete 0 0,
         LAction.resolveResult]).streamDone = true ∧
      ∃ g, (runLoad dec0 (WA.init 1) [[1]]
        [LAction.streamEvent, LAction.streamEvent, LAction.complete 0 0,
         LAction.resolveResult]).wa.lastDecode = some g ∧
        g ∈ (runLoad dec0 (WA.init 1) [[1]]
        [LAction.streamEvent, LAction.streamEvent, LAction.complete 0 0,
         LAction.resolveResult]).completed) ∧
    ((runLoad dec0 (WA.init 1) [[1]]
        [LAction.streamEvent, LAction.streamEvent, LAction.complete 0 0,
         LAction.resolveResult]).resultResolved = true →
      (runLoad dec0 (WA.init 1) [[1]]
        [LAction.streamEvent, LAction.streamEvent, LAction.complete 0 0,
         LAction.resolveResult]).streamDone = true) :=
  loadSettle_waits_last_decode dec0 (WA.init 1) [[1]]
    [LAction.streamEvent, LAction.streamEvent, LAction.complete 0 0,
     LAction.resolveResult]

/-- C2 counterexample: two chunks are pumped, issuing decode generations 0
(on snapshot [1]) and 1 (on snapshot [1, 2]); the later-issued decode 1
settles first, then the earlier-issued decode 0 settles.  The final current
decoded audio buffer is the result of the stale generation 0, even though
generation 1 is the most recently issued: the completion handler did not
ignore the stale completion. -/
theorem stale_decode_overwrites_newer :
    (runLoad dec0 (WA.init 1) [[1], [2]]
      [LAction.streamEvent, LAction.streamEvent,
       LAction.complete 1 0, LAction.complete 0 0]).wa.lastDecode = some 1 ∧
    (runLoad dec0 (WA.init 1) [[1], [2]]
      [LAction.streamEvent, LAction.streamEvent,
       LAction.complete 1 0, LAction.complete 0 0]).wa.audioBuffer
      = some (dec0 [1]) ∧
    dec0 [1] ≠ dec0 [1, 2] := by
  refine ⟨?_, ?_, by decide⟩ <;> decide

/-- C2 (amended): the decode-completion handler performs no generation
check: every completion whose decoded duration is at least minLoadDuration
installs its result as the current decoded audio buffer unconditionally and
fires onProgress, whatever decode was issued last, so an earlier-issued
decode that resolves after a later-issued one does overwrite the newer
buffer. -/
theorem decode_installs_without_generation_check (now : ℚ) (b : AudioBuffer)
    (s : WA) (h : s.minLoadDuration ≤ b.duration) :
    (decodeComplete now b s).1.audioBuffer = some b ∧
    Ev.onProgress ∈ (decodeComplete now b s).2 := by
  constructor
  · cases hps : s.paused <;> cases hbf : s.buffering <;>
      simp [decodeComplete, h, hps, hbf, updateAudioBuffer, disposeAudioSource,
        createAudioSource, playAudioBuffer]
  · simp [decodeComplete, h]

/-- Witness for C2 (amended): a five second decode result installed against
the default minimum of one second. -/
theorem decode_installs_without_generation_check_w :
    (decodeComplete 0 ⟨5, 0⟩ (WA.init 1)).1.audioBuffer = some ⟨5, 0⟩ ∧
    Ev.onProgress ∈ (decodeComplete 0 ⟨5, 0⟩ (WA.init 1)).2 :=
  decode_installs_without_generation_check 0 ⟨5, 0⟩ (WA.init 1) (by decide)

/-- The invariant of a load over an empty stream: loading stays set, no
event ever fires, no decode is ever issued and the done branch never
completes normally. -/
def EmptyLoadP (ls : LoadState) : Prop :=
  ls.wa.loading = true ∧ ls.events = [] ∧ ls.chunks = [] ∧ ls.inflight = [] ∧
  ls.wa.lastDecode = none ∧ ls.streamDone = false

/-- Whether a scheduled continuation is the stream notification. -/
def isStreamEvent : LAction → Bool
  | .streamEvent => true
  | _ => false

lemma emptyLoad_step (dec : List ℕ → AudioBuffer) (a : LAction) (ls : LoadState)
    (h : EmptyLoadP ls) :
    EmptyLoadP (loadStep dec ls a) ∧
    (loadStep dec ls a).threw = (ls.threw || isStreamEvent a) := by
  obtain ⟨hl, he, hc, hi, hld, hsd⟩ := h
  cases a with
  | streamEvent =>
      cases ht : ls.threw with
      | true =>
          have heq : loadStep dec ls LAction.streamEvent = ls := by
            simp [loadStep, ht]
          rw [heq]
          exact ⟨⟨hl, he, hc, hi, hld, hsd⟩, by simp [ht, isStreamEvent]⟩
      | false =>
          have heq : loadStep dec ls LAction.streamEvent
              = { ls with threw := true } := by
            simp [loadStep, ht, hsd, hc, hld]
          rw [heq]
          exact ⟨⟨hl, he, hc, hi, hld, hsd⟩, by simp [isStreamEvent]⟩
  | complete g now =>
      have heq : loadStep dec ls (LAction.complete g now) = ls := by
        simp [loadStep, hi]
      rw [heq]
      exact ⟨⟨hl, he, hc, hi, hld, hsd⟩, by simp [isStreamEvent]⟩
  | resolveResult =>
      have heq : loadStep dec ls LAction.resolveResult = ls := by
        simp [loadStep, hsd]
      rw [heq]
      exact ⟨⟨hl, he, hc, hi, hld, hsd⟩, by simp [isStreamEvent]⟩

lemma emptyLoad_run (dec : List ℕ → AudioBuffer) (sched : List LAction) :
    ∀ ls : LoadState, EmptyLoadP ls →
      EmptyLoadP (sched.foldl (loadStep dec) ls) ∧
      (sched.foldl (loadStep dec) ls).threw
        = (ls.threw || sched.any isStreamEvent) := by
  induction sched with
  | nil => intro ls h; exact ⟨h, by simp⟩
  | cons a rest ih =>
      intro ls h
      obtain ⟨hP, hT⟩ := emptyLoad_step dec a ls h
      obtain ⟨hP2, hT2⟩ := ih (loadStep dec ls a) hP
      refine ⟨by simpa using hP2, ?_⟩
      simp only [List.foldl_cons, List.any_cons]
      rw [hT2, hT, Bool.or_assoc]

/-- C10: calling loadSource on a stream that completes before delivering any
chunk never issues a decode, so the done branch of handleDecode reads the
never-assigned _lastDecodePromise (undefined) and its then call throws: in
every continuation of such a load, loading is still true and onLoad has not
fired, and as soon as the done notification is processed the handler has
thrown (so the returned result rejects rather than resolving). -/
theorem empty_stream_never_completes (dec : List ℕ → AudioBuffer) (s0 : WA)
    (sched : List LAction) (h0 : s0.lastDecode = none) :
    (runLoad dec s0 [] sched).wa.loading = true ∧
    Ev.onLoad ∉ (runLoad dec s0 [] sched).events ∧
    (LAction.streamEvent ∈ sched → (runLoad dec s0 [] sched).threw = true) := by
  have hinit : EmptyLoadP (initLoad s0 []) := ⟨rfl, rfl, rfl, rfl, h0, rfl⟩
  obtain ⟨hP, hT⟩ := emptyLoad_run dec sched (initLoad s0 []) hinit
  refine ⟨hP.1, ?_, ?_⟩
  · show Ev.onLoad ∉ (sched.foldl (loadStep dec) (initLoad s0 [])).events
    simp [hP.2.1]
  intro hmem
  show (sched.foldl (loadStep dec) (initLoad s0 [])).threw = true
  rw [hT]
  simp only [initLoad, Bool.false_or]
  exact List.any_eq_true.mpr ⟨LAction.streamEvent, hmem, rfl⟩

/-- Witness for C10: the empty-stream load with the done notification
processed once, on a fresh instance. -/
theorem empty_stream_never_completes_w :
    (runLoad dec0 (WA.init 1) [] [LAction.streamEvent]).wa.loading = true ∧
    Ev.onLoad ∉ (runLoad dec0 (WA.init 1) [] [LAction.streamEvent]).events ∧
    (LAction.streamEvent ∈ [LAction.streamEvent] →
      (runLoad dec0 (WA.init 1) [] [LAction.streamEvent]).threw = true) :=
  empty_stream_never_completes dec0 (WA.init 1) [LAction.streamEvent] rfl

end WebAudioSpec
